import Mathlib

/-!
# Verification of the yamc-server core subsystems

Shallow embedding of the yamc-server core (provider performance governor,
topic/event bus, writer pipeline with backlog, state timers, conditional
template engine) together with proofs of the specified properties.

Conventions used throughout:
* Python `int` is modelled as `Int`, `float` (durations, timestamps) as `ℚ`.
* Wall-clock reads (`time.time()`, `datetime.now()`) are passed in as explicit
  `now` arguments; sleeping/threading is modelled by explicit event sequences.
* Fallible operations return `Option`/`Except`; a Python attribute access on an
  object is modelled by an `Option`-valued accessor (`none` = `AttributeError`).
* Logging calls are omitted; `TEST_MODE` is `False` (production behaviour).
-/

namespace Yamc

/-! ## Performance governor (src/yamc/providers/performance.py)

`PerformanceProvider.performance_pause` configuration
(`performance.pause.*` values read in `__init__`). -/

structure PerformancePause where
  running_time : ℚ
  duration_cycles : Int
  exponential_backoff : Bool
  max_waiting_cycles : Int
deriving DecidableEq, Repr

/-- The per-PerfKey governor state: the `Map` created by
`PerformanceProvider.get_perf_info` for a fresh hash.  The bookkeeping-only
fields `hash`, `id` and `started_time` (set to `datetime.now()` on each
invocation and only published to the telemetry topic) are not modelled. -/
structure PerfInfo where
  last_running_time : ℚ
  cycles_to_wait : Int
  records : Int
  last_error : Option String
  cycles_to_wait_int : Int
  reason_to_wait : Int
deriving DecidableEq, Repr

/-- Initial per-PerfKey state (`get_perf_info`, performance.py lines 73-86). -/
def initPerfInfo : PerfInfo :=
  { last_running_time := 0
    cycles_to_wait := 0
    records := 0
    last_error := none
    cycles_to_wait_int := 0
    reason_to_wait := 0 }

/-- Modelled from the spec: the `OperationalError` object as raised by provider
plugins (no provider under `src/` raises one).  Per the spec it is "wrapped by
`OperationalError` with the original cause", so the raised object carries the
optional original exception (rendered as a string) besides the message.
(The class definition in `src/yamc/providers/provider.py` itself never stores
the original exception; see `OperationalError` below.) -/
structure RaisedOperationalError where
  message : String
  original_exception : Option String
deriving DecidableEq, Repr

/-- Outcome of executing the wrapped provider call `func(*args, **kwargs)`:
either it returns after `elapsed` seconds with `records = len(result)`
(`0` when the result is `None`), or it raises an `OperationalError`. -/
inductive CallOutcome where
  | ok (elapsed : ℚ) (records : Int)
  | opError (e : RaisedOperationalError)
deriving DecidableEq, Repr

/-- `PerformanceProvider.wrapper` (performance.py lines 110-193) acting on the
per-PerfKey state.  Returns the new state together with `true` when the wrapped
function was executed and `false` when the invocation was skipped (pausing).
`TEST_MODE` is `False`, so an `OperationalError` is swallowed and recorded.
The telemetry publication `update_perf` does not change the state and is
omitted here. -/
def wrapper (pause : PerformancePause) (perf0 : PerfInfo) (outcome : CallOutcome) :
    PerfInfo × Bool :=
  -- perf_info.last_error = None (line 119)
  let perf := { perf0 with last_error := none }
  if perf.cycles_to_wait > 0 then
    -- waiting: decrement and reset the per-call measurements (lines 123-140)
    ({ perf with
        cycles_to_wait := perf.cycles_to_wait - 1
        last_running_time := 0
        records := 0 }, false)
  else
    -- run the function (lines 142-158)
    let perf :=
      match outcome with
      | .ok elapsed records =>
          { perf with last_running_time := elapsed, records := records, last_error := none }
      | .opError e =>
          { perf with
              last_running_time := 0
              records := 0
              last_error := some (e.original_exception.getD e.message) }
    -- eval the result (lines 160-190)
    let perf :=
      if perf.last_error.isSome ∨ perf.last_running_time > pause.running_time then
        let perf :=
          if perf.cycles_to_wait_int > 0 then
            let n :=
              if pause.exponential_backoff then perf.cycles_to_wait_int * 2
              else perf.cycles_to_wait_int + 1
            let n := if n > pause.max_waiting_cycles then pause.max_waiting_cycles else n
            { perf with cycles_to_wait_int := n, cycles_to_wait := n }
          else
            { perf with
                cycles_to_wait := pause.duration_cycles
                cycles_to_wait_int := pause.duration_cycles }
        { perf with reason_to_wait := if perf.last_error.isSome then 1 else 2 }
      else
        { perf with cycles_to_wait := 0, cycles_to_wait_int := 0, reason_to_wait := 0 }
    (perf, true)

/-- State after a sequence of governor invocations with the given call
outcomes, starting from the fresh per-PerfKey state. -/
def wrapperRun (pause : PerformancePause) (outcomes : List CallOutcome) : PerfInfo :=
  outcomes.foldl (fun s o => (wrapper pause s o).1) initPerfInfo

/-- Trace of a sequence of governor invocations: for each invocation, whether
the wrapped function was executed and the value of `cycles_to_wait` right after
the invocation. -/
def wrapperTrace (pause : PerformancePause) (outcomes : List CallOutcome) :
    List (Bool × Int) :=
  (outcomes.foldl
    (fun (acc : PerfInfo × List (Bool × Int)) o =>
      let r := wrapper pause acc.1 o
      (r.1, acc.2 ++ [(r.2, r.1.cycles_to_wait)]))
    (initPerfInfo, [])).2

/-- The governor bound: both pause counters stay below the configured
maximum number of waiting cycles. -/
def PauseBounded (pause : PerformancePause) (s : PerfInfo) : Prop :=
  s.cycles_to_wait ≤ pause.max_waiting_cycles ∧
    s.cycles_to_wait_int ≤ pause.max_waiting_cycles

theorem wrapper_pauseBounded (pause : PerformancePause)
    (hmax : 0 ≤ pause.max_waiting_cycles)
    (hdur : pause.duration_cycles ≤ pause.max_waiting_cycles)
    (s : PerfInfo) (o : CallOutcome) (h : PauseBounded pause s) :
    PauseBounded pause (wrapper pause s o).1 := by
  obtain ⟨h1, h2⟩ := h
  unfold wrapper PauseBounded
  cases o <;> dsimp only <;> split_ifs <;> simp_all <;> omega

theorem wrapperRun_pauseBounded (pause : PerformancePause)
    (hmax : 0 ≤ pause.max_waiting_cycles)
    (hdur : pause.duration_cycles ≤ pause.max_waiting_cycles)
    (outcomes : List CallOutcome) :
    PauseBounded pause (wrapperRun pause outcomes) := by
  unfold wrapperRun
  have aux : ∀ (l : List CallOutcome) (s : PerfInfo), PauseBounded pause s →
      PauseBounded pause (l.foldl (fun s o => (wrapper pause s o).1) s) := by
    intro l
    induction l with
    | nil => intro s hs; exact hs
    | cons o rest ih =>
        intro s hs
        exact ih _ (wrapper_pauseBounded pause hmax hdur s o hs)
  exact aux outcomes initPerfInfo ⟨hmax, hmax⟩

/-- C2 (counterexample): the claim "after every invocation of the governor
wrapper, `cycles_to_wait ≤ pause.max_waiting_cycles`, including the first
transition to the pausing state where the pause is set to
`pause.duration_cycles`" is false as stated: with `duration_cycles = 7` and
`max_waiting_cycles = 5`, the first faulty invocation from the fresh state
sets `cycles_to_wait` to `7 > 5` (the first transition is not capped). -/
theorem governor_first_pause_exceeds_max :
    ¬ ((wrapper ⟨99999999, 7, false, 5⟩ initPerfInfo
          (.opError ⟨"err", some "cause"⟩)).1.cycles_to_wait ≤
        (⟨99999999, 7, false, 5⟩ : PerformancePause).max_waiting_cycles) := by
  decide

/-- C2 (amended): for every pause configuration with
`0 ≤ max_waiting_cycles` and `duration_cycles ≤ max_waiting_cycles`, after
every sequence of governor invocations starting from the fresh per-PerfKey
state, `cycles_to_wait ≤ max_waiting_cycles`. -/
theorem governor_cycles_to_wait_bounded (pause : PerformancePause)
    (hmax : 0 ≤ pause.max_waiting_cycles)
    (hdur : pause.duration_cycles ≤ pause.max_waiting_cycles)
    (outcomes : List CallOutcome) :
    (wrapperRun pause outcomes).cycles_to_wait ≤ pause.max_waiting_cycles :=
  (wrapperRun_pauseBounded pause hmax hdur outcomes).1

theorem governor_cycles_to_wait_bounded_witness :
    (0 : Int) ≤ 5 ∧ (1 : Int) ≤ 5 ∧
      (wrapperRun ⟨1, 1, true, 5⟩
          [.opError ⟨"e", none⟩, .ok 2 3, .opError ⟨"e", some "x"⟩]).cycles_to_wait ≤
        (⟨1, 1, true, 5⟩ : PerformancePause).max_waiting_cycles :=
  ⟨by decide, by decide,
    governor_cycles_to_wait_bounded ⟨1, 1, true, 5⟩ (by decide) (by decide)
      [.opError ⟨"e", none⟩, .ok 2 3, .opError ⟨"e", some "x"⟩]⟩

/-- C3: with `exponential_backoff = true`, `duration_cycles = 1`,
`max_waiting_cycles = 5`, and every executed invocation of the governed call
raising `OperationalError`, the executed (`true`) invocations set
`cycles_to_wait` to the sequence 1, 2, 4, 5, 5 (capped); each skipped
(`false`) invocation does not run the wrapped function and decrements
`cycles_to_wait` by one, and the call runs again exactly when
`cycles_to_wait` has reached 0. -/
theorem governor_exponential_backoff_sequence :
    wrapperTrace ⟨99999999, 1, true, 5⟩
        (List.replicate 17 (.opError ⟨"err", some "cause"⟩)) =
      [(true, 1), (false, 0), (true, 2), (false, 1), (false, 0), (true, 4),
       (false, 3), (false, 2), (false, 1), (false, 0), (true, 5), (false, 4),
       (false, 3), (false, 2), (false, 1), (false, 0), (true, 5)] := by
  decide

/-! ## OperationalError (src/yamc/providers/provider.py lines 23-29) -/

/-- `OperationalError` exactly as the class is defined in
`src/yamc/providers/provider.py`: `__init__(self, message)` only forwards
`message` to `Exception.__init__` and assigns no other attribute. -/
structure OperationalError where
  message : String
deriving DecidableEq, Repr

/-- Python attribute access `e.original_exception` on an `OperationalError`
instance.  The class assigns no such attribute, so for every instance the
access raises `AttributeError`, modelled as `none` (`some v` would mean the
attribute is present with value `v`, itself an `Option String` because Python
allows the attribute value `None`). -/
def OperationalError.getOriginalException (_ : OperationalError) :
    Option (Option String) := none

/-- The `except OperationalError` handler of `PerformanceProvider.wrapper`
(performance.py lines 149-158) outside test mode, reduced to the computation
of the recorded `last_error` string: `last_error = str(e)`, then
`if e.original_exception is not None: last_error = str(e.original_exception)`.
The attribute access is the first step; when it raises `AttributeError` the
handler itself fails (`Except.error`). -/
def governorLastError (e : OperationalError) : Except String String :=
  match e.getOriginalException with
  | none => .error "AttributeError"
  | some (some o) => .ok o
  | some none => .ok e.message

/-- C6: the claim that every `OperationalError` carries the original causing
exception and that the governor can read it (so that handling never fails) is
contradicted by the code: the `OperationalError` class stores only `message`,
so for every instance the governor's read of `e.original_exception` raises
`AttributeError` and the handling of the error itself fails. -/
theorem operationalError_handling_fails (e : OperationalError) :
    governorLastError e = .error "AttributeError" := rfl

/-! ## Topic and EventSource (src/yamc/providers/event.py)

A `Topic` holds the publication time, the last data, the history and the
subscribed delivery queues.  `Topic.update` is serialized by the per-topic
lock; the model therefore treats one `update` call as one atomic step, with
the wall-clock read `time.time()` passed in as `now`.  The data records are
an abstract type `α`. -/

/-- `Topic.as_dict()` output: `merge_dicts(Map(topic_id=..., time=...), self.data)`.
Modelled from the spec (`merge_dicts` lives in `yamc/utils.py`, which is not
under `src/`): the result is `{topic_id, time, …record fields}`. -/
structure TopicDict (α : Type _) where
  topic_id : String
  time : ℚ
  data : Option α
deriving DecidableEq, Repr

/-- The `Topic` object (event.py lines 17-49).  A subscriber queue is its list
of delivered envelopes, oldest first (`queue.put` appends).  The back-pointer
`event_source` is modelled by the base `EventSource.on_topic_update`, which is
a no-op (event.py lines 96-97) and does not touch the topic. -/
structure Topic (α : Type _) where
  topic_id : String
  time : ℚ
  data : Option α
  subscribers : List (List (TopicDict α))
  history : List α
deriving DecidableEq, Repr

def Topic.as_dict {α : Type _} (t : Topic α) : TopicDict α :=
  ⟨t.topic_id, t.time, t.data⟩

/-- `Topic.update(data)` (event.py lines 32-39): sets `time` to the current
time, stores `data`, appends it to `history`, calls the (no-op)
`event_source.on_topic_update`, then puts `self.as_dict()` into every
subscribed queue. -/
def Topic.update {α : Type _} (t : Topic α) (now : ℚ) (d : α) : Topic α :=
  let t' : Topic α :=
    { t with time := now, data := some d, history := t.history ++ [d] }
  { t' with subscribers := t'.subscribers.map (fun q => q ++ [t'.as_dict]) }

/-- `Topic.subscribe(queue)` (event.py lines 48-49). -/
def Topic.subscribe {α : Type _} (t : Topic α) (q : List (TopicDict α)) : Topic α :=
  { t with subscribers := t.subscribers ++ [q] }

/-- A sequence of `update` calls, each with its wall-clock time and data. -/
def Topic.updates {α : Type _} (t : Topic α) (us : List (ℚ × α)) : Topic α :=
  us.foldl (fun t p => t.update p.1 p.2) t

theorem Topic.update_topic_id {α : Type _} (t : Topic α) (now : ℚ) (d : α) :
    (t.update now d).topic_id = t.topic_id := rfl

theorem Topic.updates_spec {α : Type _} (t : Topic α) (us : List (ℚ × α)) :
    (t.updates us).history = t.history ++ us.map Prod.snd ∧
      (t.updates us).subscribers =
        t.subscribers.map
          (fun q => q ++ us.map (fun p => ⟨t.topic_id, p.1, some p.2⟩)) := by
  induction us generalizing t with
  | nil =>
      simp [Topic.updates]
  | cons u rest ih =>
      have h := ih (t.update u.1 u.2)
      unfold Topic.updates at h ⊢
      simp only [List.foldl_cons] at *
      refine ⟨?_, ?_⟩
      · rw [h.1]
        simp [Topic.update]
      · rw [h.2]
        simp [Topic.update, Topic.as_dict, List.map_map, Function.comp]

/-- C4: `Topic.update(data)` sets the topic's time to the current time,
appends `data` to the history and puts exactly one envelope (the topic's
`as_dict`) into every subscribed queue; over any sequence of `update` calls
every subscriber queue receives exactly the per-call envelopes, in the order
the calls were made (one envelope per call). -/
theorem topic_update_delivery {α : Type _} (t : Topic α) (now : ℚ) (d : α)
    (us : List (ℚ × α)) :
    (t.update now d).time = now ∧
      (t.update now d).history = t.history ++ [d] ∧
      (t.update now d).subscribers =
        t.subscribers.map (fun q => q ++ [⟨t.topic_id, now, some d⟩]) ∧
      (t.updates us).history = t.history ++ us.map Prod.snd ∧
      (t.updates us).subscribers =
        t.subscribers.map
          (fun q => q ++ us.map (fun p => ⟨t.topic_id, p.1, some p.2⟩)) := by
  refine ⟨rfl, rfl, ?_, (Topic.updates_spec t us).1, (Topic.updates_spec t us).2⟩
  simp [Topic.update, Topic.as_dict]

/-! ## EventSource.select (src/yamc/providers/event.py lines 71-87)

`self.topics` is an insertion-ordered dict `topic_id → Topic` with exactly one
`Topic` object per id, and Python's `in`/`not in` on `Topic` objects compares
object identity, which here coincides with id equality; the model therefore
represents a topic by its id.  `re.match(id, k)` is abstracted as a boolean
function `rmatch`. -/

/-- One iteration of the `for id in ids` loop of `select`: exact dict lookup
first (appended unconditionally), otherwise the regular-expression scan over
the topics in insertion order, appending only topics not already selected. -/
def selectStep (topics : List String) (rmatch : String → String → Bool)
    (sources : List String) (id : String) : List String :=
  if id ∈ topics then sources ++ [id]
  else
    topics.foldl
      (fun srcs k => if rmatch id k ∧ k ∉ srcs then srcs ++ [k] else srcs)
      sources

/-- `EventSource.select(*ids)` (the `silent` flag only controls a log line
that is commented out in the source). -/
def select (topics : List String) (rmatch : String → String → Bool)
    (ids : List String) : List String :=
  ids.foldl (selectStep topics rmatch) []

theorem selectInner_subset (rmatch : String → String → Bool) (id : String)
    (l topics srcs : List String) (hl : ∀ k ∈ l, k ∈ topics)
    (hs : ∀ x ∈ srcs, x ∈ topics) :
    ∀ x ∈ l.foldl
        (fun srcs k => if rmatch id k ∧ k ∉ srcs then srcs ++ [k] else srcs)
        srcs, x ∈ topics := by
  induction l generalizing srcs with
  | nil => exact hs
  | cons k rest ih =>
      intro x hx
      simp only [List.foldl_cons] at hx
      refine ih _ (fun k' hk' => hl k' (List.mem_cons_of_mem _ hk')) ?_ x hx
      intro y hy
      split at hy
      · rcases List.mem_append.mp hy with h | h
        · exact hs y h
        · simp only [List.mem_singleton] at h
          subst h
          exact hl _ (by simp)
      · exact hs y hy

theorem selectInner_nodup (rmatch : String → String → Bool) (id : String)
    (l srcs : List String) (h : srcs.Nodup) :
    (l.foldl
        (fun srcs k => if rmatch id k ∧ k ∉ srcs then srcs ++ [k] else srcs)
        srcs).Nodup := by
  induction l generalizing srcs with
  | nil => exact h
  | cons k rest ih =>
      simp only [List.foldl_cons]
      apply ih
      split
      · next hc => simp [List.nodup_append, h, hc.2]
      · exact h

theorem selectInner_filter (rmatch : String → String → Bool) (id : String)
    (l srcs : List String) (hnd : l.Nodup) (h : ∀ k ∈ l, k ∉ srcs) :
    l.foldl
        (fun srcs k => if rmatch id k ∧ k ∉ srcs then srcs ++ [k] else srcs)
        srcs
      = srcs ++ l.filter (fun k => rmatch id k) := by
  induction l generalizing srcs with
  | nil => simp
  | cons k rest ih =>
      simp only [List.foldl_cons, List.filter_cons]
      by_cases hr : rmatch id k
      · have hk : k ∉ srcs := h k (by simp)
        rw [if_pos ⟨hr, hk⟩]
        rw [ih _ (List.Nodup.of_cons hnd) ?_]
        · simp [hr]
        · intro k' hk'
          have hne : k' ≠ k := by
            intro he
            subst he
            exact (List.nodup_cons.mp hnd).1 hk'
          simp [h k' (List.mem_cons_of_mem _ hk'), hne]
      · rw [if_neg (by simp [hr])]
        rw [ih _ (List.Nodup.of_cons hnd)
          (fun k' hk' => h k' (List.mem_cons_of_mem _ hk'))]
        simp [hr]

theorem select_go_subset (topics : List String) (rmatch : String → String → Bool)
    (ids srcs : List String) (hs : ∀ x ∈ srcs, x ∈ topics) :
    ∀ x ∈ ids.foldl (selectStep topics rmatch) srcs, x ∈ topics := by
  induction ids generalizing srcs with
  | nil => exact hs
  | cons id rest ih =>
      intro x hx
      simp only [List.foldl_cons] at hx
      refine ih _ ?_ x hx
      unfold selectStep
      split
      · next hmem =>
          intro y hy
          rcases List.mem_append.mp hy with h | h
          · exact hs y h
          · simp only [List.mem_singleton] at h
            subst h; exact hmem
      · exact selectInner_subset rmatch id topics topics srcs (fun k hk => hk) hs

theorem select_go_nodup (topics : List String) (rmatch : String → String → Bool)
    (ids srcs : List String) (hids : ∀ id ∈ ids, id ∉ topics)
    (hs : srcs.Nodup) :
    (ids.foldl (selectStep topics rmatch) srcs).Nodup := by
  induction ids generalizing srcs with
  | nil => exact hs
  | cons id rest ih =>
      simp only [List.foldl_cons]
      refine ih _ (fun i hi => hids i (List.mem_cons_of_mem _ hi)) ?_
      unfold selectStep
      rw [if_neg (hids id (by simp))]
      exact selectInner_nodup rmatch id topics srcs hs

/-- C7 (counterexample): the claim that no topic appears more than once in the
result of `select` is false: an exact match is appended without the
de-duplication check, so selecting the same existing topic id twice returns
the topic twice. -/
theorem select_duplicate_exact_match :
    select ["ab"] (fun _ _ => false) ["ab", "ab"] = ["ab", "ab"] ∧
      ¬ (select ["ab"] (fun _ _ => false) ["ab", "ab"]).Nodup := by
  constructor
  · rfl
  · decide

/-- C7 (amended): `select` processes the patterns in order; a pattern with an
exact id match contributes that topic, appended unconditionally (so a topic
can appear more than once in the result), and otherwise contributes the
regular-expression matches in topic insertion order, de-duplicated against
the topics already selected.  Consequently every result element is a known
topic; the result is duplicate-free whenever no pattern matches exactly; and
a single pattern selects its exact match, or else exactly the
regular-expression matches in insertion order. -/
theorem select_exact_then_regex (topics : List String)
    (rmatch : String → String → Bool) (ids : List String)
    (hnd : topics.Nodup) :
    (∀ x ∈ select topics rmatch ids, x ∈ topics) ∧
      ((∀ id ∈ ids, id ∉ topics) → (select topics rmatch ids).Nodup) ∧
      (∀ id, select topics rmatch [id] =
        if id ∈ topics then [id]
        else topics.filter (fun k => rmatch id k)) := by
  refine ⟨select_go_subset topics rmatch ids [] (by simp),
    fun h => select_go_nodup topics rmatch ids [] h (by simp), fun id => ?_⟩
  unfold select selectStep
  simp only [List.foldl_cons, List.foldl_nil]
  split
  · simp
  · exact selectInner_filter rmatch id topics [] hnd (by simp)

theorem select_exact_then_regex_witness :
    (["ab", "cd"] : List String).Nodup ∧
      select ["ab", "cd"] (fun _ k => k == "ab") ["x"] =
        (if ("x" : String) ∈ ["ab", "cd"] then ["x"]
         else ["ab", "cd"].filter (fun k => (fun _ k => k == "ab") "x" k)) :=
  ⟨by decide,
    (select_exact_then_regex ["ab", "cd"] (fun _ k => k == "ab") ["x"]
      (by decide)).2.2 "x"⟩

/-! ## Writer pipeline (src/yamc/writers/writer.py)

Envelopes (`Map(collector_id=..., data=...)`) are abstracted as `Env := Nat`;
the pipeline moves them around without inspecting them.  A backlog file is
its pickled list of envelopes; `Backlog.all_files` is kept in ascending-mtime
order (`refresh` sorts by mtime and `put` appends the newly created — hence
newest — file).  `base_config.test` is `False` (production), so `do_write`
runs, `Backlog.put` writes a file and `Backlog.remove` deletes files. -/

abbrev Env := Nat

namespace Backlog

/-- `Backlog.peek(size)` (writer.py lines 269-275): the first
`min(size, len(all_files))` files together with the concatenation of the
envelope lists loaded from them (`data += pickle.load(f)` in file order). -/
def peek (all_files : List (List Env)) (size : Nat) :
    List (List Env) × List Env :=
  let files := all_files.take (min size all_files.length)
  (files, files.foldl (fun data f => data ++ f) [])

/-- `Backlog.remove(files)` applied to the files returned by `peek`
(writer.py lines 277-284): filenames are unique, so exactly that prefix of
`all_files` is dropped. -/
def remove (all_files : List (List Env)) (size : Nat) : List (List Env) :=
  all_files.drop (min size all_files.length)

end Backlog

/-- Writer configuration values read in `Writer.__init__`
(writer.py lines 32-47) that the modelled operations consult. -/
structure WriterCfg where
  healthcheck_interval : Nat
  batch_size : Nat
  disable_backlog : Bool
deriving DecidableEq, Repr

/-- The writer's mutable state.  The first four fields are the Python object
state (`_is_healthy`, `last_healthcheck`, `queue`, backlog `all_files`); the
last four are instrumentation recording what happened: envelopes passed to a
successful `do_write` call in order (`delivered`), envelopes discarded after
a non-HealthCheck `do_write` error (`lost`), envelopes accepted by `write`,
i.e. enqueued or sent to the backlog (`accepted`), and the number of
`healthcheck()` probe invocations (`probes`). -/
structure WriterSt where
  _is_healthy : Bool
  last_healthcheck : Nat
  queue : List Env
  backlog : List (List Env)
  delivered : List Env
  lost : List Env
  accepted : List Env
  probes : Nat
deriving DecidableEq, Repr

/-- Writer state after `__init__`: unhealthy, `last_healthcheck = 0`, empty
queue and (for a fresh data directory) empty backlog. -/
def initWriter : WriterSt :=
  ⟨false, 0, [], [], [], [], [], 0⟩

/-- `Writer.is_healthy` (writer.py lines 53-64): when the cached flag is false
and the last probe is stale by more than `healthcheck_interval`, run
`healthcheck()` (outcome `probeOk`; the base implementation fails exactly when
`disable_writer` is set, subclasses probe their backend) and set the flag
accordingly; otherwise return the cached flag.  `now` is the `time.time()`
read. -/
def is_healthy (cfg : WriterCfg) (now : Nat) (probeOk : Bool) (s : WriterSt) :
    Bool × WriterSt :=
  if ¬ s._is_healthy ∧ now - s.last_healthcheck > cfg.healthcheck_interval then
    let s' := { s with last_healthcheck := now, probes := s.probes + 1 }
    if probeOk then (true, { s' with _is_healthy := true })
    else (false, { s' with _is_healthy := false })
  else (s._is_healthy, s)

/-- `Writer.write` (writer.py lines 128-169) after the conditional-template
step produced the envelope list `es` (`data_out`): when `is_healthy()`, each
envelope is enqueued; otherwise, unless `disable_backlog`, the whole list is
stored as one backlog file.  (With `write_interval = 0` the call additionally
wakes the worker, which is represented by the event order.) -/
def Writer.write (cfg : WriterCfg) (now : Nat) (probeOk : Bool)
    (es : List Env) (s : WriterSt) : WriterSt :=
  let r := is_healthy cfg now probeOk s
  let s := r.2
  if r.1 then { s with queue := s.queue ++ es, accepted := s.accepted ++ es }
  else if ¬ cfg.disable_backlog then
    { s with backlog := s.backlog ++ [es], accepted := s.accepted ++ es }
  else s

/-- Outcome of one `do_write(batch)` call: it returns, raises
`HealthCheckException`, or raises some other exception. -/
inductive DoWriteOutcome where
  | success
  | healthCheckError
  | otherError
deriving DecidableEq, Repr

/-- The worker's `_process_qeue` (writer.py lines 182-209): when `is_healthy()`
and the queue is non-empty, drain up to `batch_size` envelopes into a batch
and call `do_write(batch)`; on `HealthCheckException` mark unhealthy and push
the batch to the backlog; on any other exception discard the batch with a
log. -/
def Writer.process_qeue (cfg : WriterCfg) (now : Nat) (probeOk : Bool)
    (outcome : DoWriteOutcome) (s : WriterSt) : WriterSt :=
  let r := is_healthy cfg now probeOk s
  let s := r.2
  if r.1 ∧ s.queue ≠ [] then
    let batch := s.queue.take cfg.batch_size
    let s := { s with queue := s.queue.drop cfg.batch_size }
    match outcome with
    | .success => { s with delivered := s.delivered ++ batch }
    | .healthCheckError =>
        { s with _is_healthy := false, backlog := s.backlog ++ [batch] }
    | .otherError => { s with lost := s.lost ++ batch }
  else s

/-- `Backlog.process` (writer.py lines 289-309): while files remain, peek up
to `batch_size` files, call `do_write` on the concatenated envelopes; on
success remove those files and continue, on any exception mark the writer
unhealthy and stop.  `oracle` lists the outcome of each `do_write` call (the
Python loop stops when the backlog is empty or a call fails, so a finite
oracle covers any terminating run). -/
def Backlog.process (cfg : WriterCfg) (s : WriterSt) : List Bool → WriterSt
  | [] => s
  | ok :: rest =>
      if s.backlog = [] then s
      else
        let batch := (Backlog.peek s.backlog cfg.batch_size).2
        if ok then
          Backlog.process cfg
            { s with
                backlog := Backlog.remove s.backlog cfg.batch_size
                delivered := s.delivered ++ batch } rest
        else { s with _is_healthy := false }

/-- An interleaving event seen by the writer: a collector calling `write`, or
one iteration of the worker loop (writer.py lines 211-215): `_process_qeue()`
followed by `if self.is_healthy(): self.backlog.process()`. -/
inductive WEvent where
  | write (now : Nat) (probeOk : Bool) (es : List Env)
  | cycle (now1 : Nat) (probe1 : Bool) (outcome : DoWriteOutcome)
      (now2 : Nat) (probe2 : Bool) (oracle : List Bool)
deriving DecidableEq, Repr

def stepEvent (cfg : WriterCfg) (s : WriterSt) : WEvent → WriterSt
  | .write now p es => Writer.write cfg now p es s
  | .cycle n1 p1 o n2 p2 oracle =>
      let s := Writer.process_qeue cfg n1 p1 o s
      let r := is_healthy cfg n2 p2 s
      if r.1 then Backlog.process cfg r.2 oracle else r.2

/-- The worker's shutdown tail (writer.py lines 217-231): after the exit
signal is set, one final `_process_qeue()`, then all envelopes still queued
are written to the backlog as one file, and the thread ends. -/
def Writer.shutdown (cfg : WriterCfg) (now : Nat) (probeOk : Bool)
    (outcome : DoWriteOutcome) (s : WriterSt) : WriterSt :=
  let s := Writer.process_qeue cfg now probeOk outcome s
  if s.queue ≠ [] then
    { s with backlog := s.backlog ++ [s.queue], queue := [] }
  else s

/-- Writer history: events while the worker runs, then the graceful-shutdown
tail. -/
def Writer.runShutdown (cfg : WriterCfg) (evs : List WEvent) (now : Nat)
    (probeOk : Bool) (outcome : DoWriteOutcome) : WriterSt :=
  Writer.shutdown cfg now probeOk outcome (evs.foldl (stepEvent cfg) initWriter)

theorem foldl_append_eq_flatten (l : List (List Env)) (acc : List Env) :
    l.foldl (fun data f => data ++ f) acc = acc ++ l.flatten := by
  induction l generalizing acc with
  | nil => simp
  | cons f rest ih => simp [ih]

theorem Backlog.peek_snd (af : List (List Env)) (n : Nat) :
    (Backlog.peek af n).2 = (af.take (min n af.length)).flatten := by
  unfold Backlog.peek
  exact foldl_append_eq_flatten _ []

/-- Envelope conservation: the accepted envelopes are exactly the delivered
ones, the backlog contents, the queued ones and the discarded ones. -/
def Conserves (s : WriterSt) : Prop :=
  (s.accepted : Multiset Env) =
    ↑s.delivered + ↑s.backlog.flatten + ↑s.queue + ↑s.lost

theorem is_healthy_lists (cfg : WriterCfg) (now : Nat) (p : Bool)
    (s : WriterSt) :
    ((is_healthy cfg now p s).2).queue = s.queue ∧
      ((is_healthy cfg now p s).2).backlog = s.backlog ∧
      ((is_healthy cfg now p s).2).delivered = s.delivered ∧
      ((is_healthy cfg now p s).2).lost = s.lost ∧
      ((is_healthy cfg now p s).2).accepted = s.accepted := by
  unfold is_healthy
  split_ifs <;> simp

theorem conserves_write (cfg : WriterCfg) (now : Nat) (p : Bool)
    (es : List Env) (s : WriterSt) (h : Conserves s) :
    Conserves (Writer.write cfg now p es s) ∧
      (Writer.write cfg now p es s).lost = s.lost := by
  obtain ⟨hq, hb, hd, hlo, ha⟩ := is_healthy_lists cfg now p s
  unfold Conserves at h ⊢
  simp only [Writer.write]
  split_ifs <;> refine ⟨?_, by simp [hlo]⟩ <;>
    simp only [hq, hb, hd, hlo, ha, List.flatten_append, List.flatten_cons,
      List.flatten_nil, List.append_nil, ← Multiset.coe_add] <;> rw [h] <;> abel

theorem conserves_process_qeue (cfg : WriterCfg) (now : Nat) (p : Bool)
    (o : DoWriteOutcome) (s : WriterSt) (h : Conserves s) :
    Conserves (Writer.process_qeue cfg now p o s) ∧
      (o ≠ .otherError →
        (Writer.process_qeue cfg now p o s).lost = s.lost) := by
  obtain ⟨hq, hb, hd, hlo, ha⟩ := is_healthy_lists cfg now p s
  unfold Conserves at h ⊢
  simp only [Writer.process_qeue]
  have hsplit : (s.queue.take cfg.batch_size : Multiset Env) +
      ↑(s.queue.drop cfg.batch_size) = ↑s.queue := by
    rw [Multiset.coe_add]
    simp
  cases o with
  | success =>
      split_ifs
      · refine ⟨?_, fun _ => by simp [hlo]⟩
        simp only [hq, hb, hd, hlo, ha, ← Multiset.coe_add]
        rw [h, ← hsplit]
        abel
      · exact ⟨by simp only [hq, hb, hd, hlo, ha]; exact h, fun _ => hlo⟩
  | healthCheckError =>
      split_ifs
      · refine ⟨?_, fun _ => by simp [hlo]⟩
        simp only [hq, hb, hd, hlo, ha, List.flatten_append, List.flatten_cons,
          List.flatten_nil, List.append_nil, ← Multiset.coe_add]
        rw [h, ← hsplit]
        abel
      · exact ⟨by simp only [hq, hb, hd, hlo, ha]; exact h, fun _ => hlo⟩
  | otherError =>
      split_ifs
      · refine ⟨?_, fun hc => (hc rfl).elim⟩
        simp only [hq, hb, hd, hlo, ha, ← Multiset.coe_add]
        rw [h, ← hsplit]
        abel
      · exact ⟨by simp only [hq, hb, hd, hlo, ha]; exact h, fun _ => hlo⟩

theorem conserves_backlog_process (cfg : WriterCfg) (oracle : List Bool)
    (s : WriterSt) (h : Conserves s) :
    Conserves (Backlog.process cfg s oracle) ∧
      (Backlog.process cfg s oracle).lost = s.lost := by
  induction oracle generalizing s with
  | nil => exact ⟨h, rfl⟩
  | cons ok rest ih =>
      unfold Backlog.process
      split_ifs with h1 h2
      · exact ⟨h, rfl⟩
      · refine ih _ ?_
        unfold Conserves at h ⊢
        simp only [Backlog.peek_snd, Backlog.remove, ← Multiset.coe_add]
        rw [h]
        have : ((s.backlog.take (min cfg.batch_size s.backlog.length)).flatten
              : Multiset Env) +
            ↑((s.backlog.drop (min cfg.batch_size s.backlog.length)).flatten) =
            ↑s.backlog.flatten := by
          rw [Multiset.coe_add, ← List.flatten_append, List.take_append_drop]
        rw [← this]
        abel
      · exact ⟨h, rfl⟩

theorem conserves_stepEvent (cfg : WriterCfg) (s : WriterSt) (ev : WEvent)
    (h : Conserves s) :
    Conserves (stepEvent cfg s ev) ∧
      ((match ev with
        | .write _ _ _ => True
        | .cycle _ _ o _ _ _ => o ≠ DoWriteOutcome.otherError) →
        (stepEvent cfg s ev).lost = s.lost) := by
  cases ev with
  | write now p es =>
      have hw := conserves_write cfg now p es s h
      exact ⟨hw.1, fun _ => hw.2⟩
  | cycle n1 p1 o n2 p2 oracle =>
      have h1 := conserves_process_qeue cfg n1 p1 o s h
      obtain ⟨hq, hb, hd, hlo, ha⟩ :=
        is_healthy_lists cfg n2 p2 (Writer.process_qeue cfg n1 p1 o s)
      have h2 : Conserves
          (is_healthy cfg n2 p2 (Writer.process_qeue cfg n1 p1 o s)).2 := by
        unfold Conserves at h1 ⊢
        rw [hq, hb, hd, hlo, ha]
        exact h1.1
      simp only [stepEvent]
      split_ifs
      · have h3 := conserves_backlog_process cfg oracle _ h2
        exact ⟨h3.1, fun hne => by rw [h3.2, hlo, h1.2 hne]⟩
      · exact ⟨h2, fun hne => by rw [hlo, h1.2 hne]⟩

/-- Events with no non-HealthCheck `do_write` failure. -/
def WEvent.noOtherError : WEvent → Prop
  | .write _ _ _ => True
  | .cycle _ _ o _ _ _ => o ≠ DoWriteOutcome.otherError

theorem conserves_run (cfg : WriterCfg) (evs : List WEvent) :
    Conserves (evs.foldl (stepEvent cfg) initWriter) ∧
      ((∀ ev ∈ evs, ev.noOtherError) →
        (evs.foldl (stepEvent cfg) initWriter).lost = []) := by
  have aux : ∀ (l : List WEvent) (s : WriterSt), Conserves s →
      Conserves (l.foldl (stepEvent cfg) s) ∧
        ((∀ ev ∈ l, ev.noOtherError) →
          (l.foldl (stepEvent cfg) s).lost = s.lost) := by
    intro l
    induction l with
    | nil => exact fun s hs => ⟨hs, fun _ => rfl⟩
    | cons ev rest ih =>
        intro s hs
        have h1 := conserves_stepEvent cfg s ev hs
        have h2 := ih (stepEvent cfg s ev) h1.1
        refine ⟨h2.1, fun hall => ?_⟩
        rw [List.foldl_cons,
          h2.2 (fun e he => hall e (List.mem_cons_of_mem _ he))]
        have := hall ev (by simp)
        cases ev with
        | write now p es => exact h1.2 trivial
        | cycle n1 p1 o n2 p2 oracle => exact h1.2 this
  have h0 : Conserves initWriter := by
    unfold Conserves initWriter
    simp
  exact ⟨(aux evs initWriter h0).1, fun hall => (aux evs initWriter h0).2 hall⟩

theorem conserves_shutdown (cfg : WriterCfg) (now : Nat) (p : Bool)
    (o : DoWriteOutcome) (s : WriterSt) (h : Conserves s) :
    Conserves (Writer.shutdown cfg now p o s) ∧
      (Writer.shutdown cfg now p o s).queue = [] ∧
      (o ≠ .otherError →
        (Writer.shutdown cfg now p o s).lost =
          (Writer.process_qeue cfg now p o s).lost) := by
  have h1 := conserves_process_qeue cfg now p o s h
  simp only [Writer.shutdown]
  split_ifs with hne
  · refine ⟨?_, rfl, fun hc => by simp⟩
    have hc := h1.1
    unfold Conserves at hc ⊢
    simp only [List.flatten_append, List.flatten_cons, List.flatten_nil,
      List.append_nil, ← Multiset.coe_add, Multiset.coe_nil]
    rw [hc]
    abel
  · have hq : (Writer.process_qeue cfg now p o s).queue = [] :=
      not_not.mp hne
    exact ⟨h1.1, hq, fun _ => rfl⟩

instance (ev : WEvent) : Decidable ev.noOtherError :=
  match ev with
  | .write _ _ _ => .isTrue trivial
  | .cycle _ _ o _ _ _ => inferInstanceAs (Decidable (o ≠ DoWriteOutcome.otherError))

/-- C1 (counterexample): the claim "every envelope accepted by `write` is
either passed to `do_write` exactly once with success, or is persisted in the
backlog" fails when a `do_write` call raises an exception other than
`HealthCheckException`: the worker discards the batch.  Concretely, envelope
`0` is accepted (enqueued) by a healthy writer, the worker's `do_write` raises
a non-HealthCheck error, and after graceful shutdown the envelope is neither
delivered nor in the backlog. -/
theorem writer_discards_on_other_error :
    (Writer.runShutdown ⟨0, 100, false⟩
        [.write 1 true [0], .cycle 2 true .otherError 3 true []]
        4 true .success).accepted = [0] ∧
      (Writer.runShutdown ⟨0, 100, false⟩
          [.write 1 true [0], .cycle 2 true .otherError 3 true []]
          4 true .success).delivered = [] ∧
      (Writer.runShutdown ⟨0, 100, false⟩
          [.write 1 true [0], .cycle 2 true .otherError 3 true []]
          4 true .success).backlog = [] := by
  decide

/-- C1 (amended): provided every `do_write` failure is a
`HealthCheckException` (the worker's other-exception branch, which discards
the batch per the spec's error-propagation policy, is never taken), the
multiset of envelopes accepted by `write` equals the delivered envelopes plus
the backlog contents at every point; in particular after graceful shutdown
(exit signal set, worker ended) the queue is empty and every accepted
envelope is either delivered exactly once or contained in the backlog. -/
theorem writer_accepted_delivered_or_backlog (cfg : WriterCfg)
    (evs : List WEvent) (now : Nat) (p : Bool) (o : DoWriteOutcome)
    (hevs : ∀ ev ∈ evs, ev.noOtherError) (ho : o ≠ .otherError) :
    (Writer.runShutdown cfg evs now p o).queue = [] ∧
      ((Writer.runShutdown cfg evs now p o).accepted : Multiset Env) =
        ↑(Writer.runShutdown cfg evs now p o).delivered +
          ↑(Writer.runShutdown cfg evs now p o).backlog.flatten := by
  have hr := conserves_run cfg evs
  have hs := conserves_shutdown cfg now p o _ hr.1
  refine ⟨hs.2.1, ?_⟩
  have hc := hs.1
  unfold Conserves at hc
  unfold Writer.runShutdown at hs ⊢
  rw [hs.2.1] at hc
  have hlost : (Writer.shutdown cfg now p o
      (evs.foldl (stepEvent cfg) initWriter)).lost = [] := by
    rw [hs.2.2 ho]
    have := (conserves_process_qeue cfg now p o
      (evs.foldl (stepEvent cfg) initWriter) hr.1).2 ho
    rw [this, hr.2 hevs]
  rw [hlost] at hc
  simpa using hc

theorem writer_accepted_delivered_or_backlog_witness :
    ((∀ ev ∈ ([.write 1 true [5, 6], .cycle 2 true .success 3 true []] :
        List WEvent), ev.noOtherError) ∧
      DoWriteOutcome.success ≠ DoWriteOutcome.otherError) ∧
      ((Writer.runShutdown ⟨0, 2, false⟩
          [.write 1 true [5, 6], .cycle 2 true .success 3 true []]
          4 true .success).queue = [] ∧
        ((Writer.runShutdown ⟨0, 2, false⟩
            [.write 1 true [5, 6], .cycle 2 true .success 3 true []]
            4 true .success).accepted : Multiset Env) =
          ↑(Writer.runShutdown ⟨0, 2, false⟩
              [.write 1 true [5, 6], .cycle 2 true .success 3 true []]
              4 true .success).delivered +
            ↑(Writer.runShutdown ⟨0, 2, false⟩
                [.write 1 true [5, 6], .cycle 2 true .success 3 true []]
                4 true .success).backlog.flatten) :=
  ⟨⟨by decide, by decide⟩,
    writer_accepted_delivered_or_backlog ⟨0, 2, false⟩
      [.write 1 true [5, 6], .cycle 2 true .success 3 true []]
      4 true .success (by decide) (by decide)⟩

theorem is_healthy_of_healthy (cfg : WriterCfg) (now : Nat) (p : Bool)
    (s : WriterSt) (hs : s._is_healthy = true) :
    is_healthy cfg now p s = (true, s) := by
  unfold is_healthy
  rw [if_neg (by simp [hs])]
  rw [hs]

theorem backlog_process_probes (cfg : WriterCfg) (s : WriterSt)
    (oracle : List Bool) :
    (Backlog.process cfg s oracle).probes = s.probes := by
  induction oracle generalizing s with
  | nil => rfl
  | cons ok rest ih =>
      unfold Backlog.process
      split_ifs <;> simp [ih]

theorem process_qeue_healthy (cfg : WriterCfg) (n : Nat) (p : Bool)
    (o : DoWriteOutcome) (s : WriterSt) (hs : s._is_healthy = true)
    (ho : o ≠ .healthCheckError) :
    (Writer.process_qeue cfg n p o s)._is_healthy = true ∧
      (Writer.process_qeue cfg n p o s).probes = s.probes := by
  simp only [Writer.process_qeue, is_healthy_of_healthy cfg n p s hs]
  cases o with
  | success => split_ifs <;> exact ⟨hs, rfl⟩
  | healthCheckError => exact (ho rfl).elim
  | otherError => split_ifs <;> exact ⟨hs, rfl⟩

/-- C9: while the cached health flag is true, `is_healthy()` returns true
without invoking `healthcheck()` and without touching the state; a probe
happens only when the writer is unhealthy and the last probe is stale by more
than `healthcheck_interval`; and starting from a healthy writer, no event
probes again unless it is a worker cycle whose `do_write` raised
`HealthCheckException` (which resets the flag first) — in particular a
collector `write` call never re-probes a healthy writer. -/
theorem writer_healthy_no_reprobe :
    (∀ (cfg : WriterCfg) (now : Nat) (p : Bool) (s : WriterSt),
        s._is_healthy = true → is_healthy cfg now p s = (true, s)) ∧
      (∀ (cfg : WriterCfg) (now : Nat) (p : Bool) (s : WriterSt),
        ((is_healthy cfg now p s).2).probes ≠ s.probes →
          s._is_healthy = false ∧
            now - s.last_healthcheck > cfg.healthcheck_interval) ∧
      (∀ (cfg : WriterCfg) (s : WriterSt) (n1 : Nat) (p1 : Bool)
          (o : DoWriteOutcome) (n2 : Nat) (p2 : Bool) (oracle : List Bool),
        s._is_healthy = true →
          (stepEvent cfg s (.cycle n1 p1 o n2 p2 oracle)).probes = s.probes ∨
            o = .healthCheckError) ∧
      (∀ (cfg : WriterCfg) (s : WriterSt) (now : Nat) (p : Bool)
          (es : List Env),
        s._is_healthy = true →
          (stepEvent cfg s (.write now p es)).probes = s.probes) := by
  refine ⟨is_healthy_of_healthy, ?_, ?_, ?_⟩
  · intro cfg now p s hne
    unfold is_healthy at hne
    by_cases hc : ¬ s._is_healthy = true ∧
        now - s.last_healthcheck > cfg.healthcheck_interval
    · exact ⟨by simpa using hc.1, hc.2⟩
    · rw [if_neg hc] at hne
      exact (hne rfl).elim
  · intro cfg s n1 p1 o n2 p2 oracle hs
    cases o with
    | healthCheckError => exact Or.inr rfl
    | success =>
        refine Or.inl ?_
        obtain ⟨hh, hp⟩ :=
          process_qeue_healthy cfg n1 p1 .success s hs (by simp)
        simp only [stepEvent]
        rw [is_healthy_of_healthy cfg n2 p2 _ hh]
        split_ifs <;> simp [backlog_process_probes, hp]
    | otherError =>
        refine Or.inl ?_
        obtain ⟨hh, hp⟩ :=
          process_qeue_healthy cfg n1 p1 .otherError s hs (by simp)
        simp only [stepEvent]
        rw [is_healthy_of_healthy cfg n2 p2 _ hh]
        split_ifs <;> simp [backlog_process_probes, hp]
  · intro cfg s now p es hs
    simp only [stepEvent, Writer.write, is_healthy_of_healthy cfg now p s hs]
    split_ifs <;> rfl

theorem writer_healthy_no_reprobe_witness :
    (⟨true, 0, [], [], [], [], [], 0⟩ : WriterSt)._is_healthy = true ∧
      is_healthy ⟨20, 100, false⟩ 50 false ⟨true, 0, [], [], [], [], [], 0⟩ =
        (true, ⟨true, 0, [], [], [], [], [], 0⟩) :=
  ⟨rfl, writer_healthy_no_reprobe.1 ⟨20, 100, false⟩ 50 false
    ⟨true, 0, [], [], [], [], [], 0⟩ rfl⟩

/-- C10: `Backlog.peek(n)` on a backlog of `k` stored files returns the first
`min(n, k)` files (ascending mtime order, the order `all_files` is kept in)
together with the concatenation of all envelopes contained in those files;
hence a backlog-replay `do_write` batch consists of whole files and
`batch_size` bounds the number of files, not envelopes — witnessed by a
single-file backlog whose replay batch holds more envelopes than
`batch_size`. -/
theorem backlog_peek_whole_files (af : List (List Env)) (n : Nat) :
    (Backlog.peek af n).1 = af.take (min n af.length) ∧
      (Backlog.peek af n).2 = (af.take (min n af.length)).flatten ∧
      ∃ (af2 : List (List Env)) (bs : Nat), 0 < bs ∧
        bs < ((Backlog.peek af2 bs).2).length :=
  ⟨rfl, Backlog.peek_snd af n, ⟨[[0, 1]], 1, by decide, by decide⟩⟩

/-! ## Conditional template engine
(`Writer.process_conditional_dict`, src/yamc/writers/writer.py lines 66-126)

The expression evaluator is external to the core (spec §1); a `$if` guard is
a function from the scope to its boolean result (the guards at hand, such as
`data.state == "on"`, are comparisons), and payload values are literals or
expressions evaluated by `_deep_eval`.  The modelled blocks are flat (no
nested `$def`), as in the claim. -/

/-- A payload value: a literal, or a `PythonExpression` that `_deep_eval`
evaluates against the scope. -/
inductive PValue (σ : Type _) where
  | lit (n : Int)
  | expr (f : σ → Int)

/-- `_deep_eval` (writer.py lines 70-82) on a flat payload value. -/
def PValue.deep_eval {σ : Type _} (scope : σ) : PValue σ → Int
  | .lit n => n
  | .expr f => f scope

/-- Modelled from the spec: `deep_merge(a, b)` lives in `yamc/utils.py`,
which is not under `src/`.  Per the spec "later blocks override earlier
blocks on key conflict", and `_process_block` computes
`deep_merge(new_block_result, accumulated)`, so keys of the first argument
win.  Flat records suffice for the modelled payloads. -/
def deep_merge (a b : List (String × Int)) : List (String × Int) :=
  a ++ b.filter (fun kv => !(a.any (fun kv2 => kv2.1 == kv.1)))

/-- Python `str.split(sep)` on a one-character separator, on the character
list of the string: splitting never drops empty fields. -/
def splitChar (sep : Char) : List Char → List (List Char)
  | [] => [[]]
  | c :: rest =>
      match splitChar sep rest with
      | [] => if c = sep then [[], []] else [[c]]
      | g :: gs => if c = sep then [] :: g :: gs else (c :: g) :: gs

/-- Python `str.split(",")`. -/
def pySplit (s : String) (sep : Char) : List String :=
  (splitChar sep s.toList).map (fun cs => String.mk cs)

/-- Python `str.strip()`: remove leading and trailing whitespace. -/
def pyStrip (s : String) : String :=
  String.mk
    ((((s.toList.dropWhile Char.isWhitespace).reverse.dropWhile
      Char.isWhitespace)).reverse)

/-- A conditional block: the `$if` guard, the raw `$opts` string, the payload
(all keys other than `$if`, `$opts`, `__last_if_eval`), and the mutable
`__last_if_eval` marker that `_process_block` stores back on the block. -/
structure CBlock (σ : Type _) where
  if_expr : Option (σ → Bool)
  opts : String
  payload : List (String × PValue σ)
  last_if_eval : Option Bool

/-- `_process_block` (writer.py lines 84-111) for a block without nested
`$def`: split `$opts` on commas and strip; evaluate the guard (absent guard
counts as true); fire when the guard holds and, if `"$onoff"` is among the
flags, only when there is no recorded previous guard value or the value
changed; merge the evaluated payload over the accumulated data when firing;
finally record the guard value on the block whenever `$if` is present. -/
def process_block {σ : Type _} (scope : σ) (c : CBlock σ)
    (data : List (String × Int)) : CBlock σ × List (String × Int) :=
  let if_opts := (pySplit c.opts ',').map (fun x => pyStrip x)
  let eval_result : Bool := match c.if_expr with | none => true | some f => f scope
  let fire : Bool := eval_result &&
    (!(if_opts.contains "$onoff") || c.last_if_eval == none ||
      some eval_result != c.last_if_eval)
  let data' :=
    if fire then
      deep_merge (c.payload.map (fun kv => (kv.1, kv.2.deep_eval scope))) data
    else data
  let c' :=
    if c.if_expr.isSome then { c with last_if_eval := some eval_result } else c
  (c', data')

/-- `process_conditional_dict` for a top-level `$def` list of blocks
(writer.py lines 113-126): process the blocks in order starting from `{}`,
merging each block's output; returns the blocks with their updated
`__last_if_eval` markers together with the produced record. -/
def process_conditional_dict {σ : Type _} (scope : σ) (blocks : List (CBlock σ)) :
    List (CBlock σ) × List (String × Int) :=
  blocks.foldl
    (fun acc c =>
      let r := process_block scope c acc.2
      (acc.1 ++ [r.1], r.2))
    ([], [])

/-- Outputs of processing the same template over successive scopes (one call
per incoming record), threading the blocks — and thus their
`__last_if_eval` markers — from call to call. -/
def template_outputs {σ : Type _} (blocks : List (CBlock σ)) :
    List σ → List (List (String × Int))
  | [] => []
  | sc :: rest =>
      let r := process_conditional_dict sc blocks
      r.2 :: template_outputs r.1 rest

/-- C5 (counterexample): with the options string exactly `"onoff"` as in the
claim, the code's flag test `"$onoff" not in if_opts` never finds the flag,
so the block fires on every input whose guard is true: over the states
on, on, off, on the second output still contains `e:1`, contradicting the
claimed "nothing on event 2". -/
theorem onoff_flag_spelled_without_dollar_fires_every_time :
    template_outputs
        [⟨some (fun st => st == "on"), "onoff", [("e", .lit 1)], none⟩]
        (["on", "on", "off", "on"] : List String) =
      [[("e", 1)], [("e", 1)], [], [("e", 1)]] := by
  decide

/-- C5 (amended): the flag recognized by the code is spelled `"$onoff"`, not
`"onoff"`.  With `$opts: "$onoff"`, a guard `data.state == "on"` and payload
`{e: 1}`, the states on, on, off, on produce: `e:1` on event 1, an empty
output on event 2 (same guard value as recorded), an empty output on event 3
(guard false), and `e:1` on event 4 (guard value changed back). -/
theorem onoff_transitions_with_dollar_flag :
    template_outputs
        [⟨some (fun st => st == "on"), "$onoff", [("e", .lit 1)], none⟩]
        (["on", "on", "off", "on"] : List String) =
      [[("e", 1)], [], [], [("e", 1)]] := by
  decide

/-! ## State and timers (src/yamc/component.py, `State.update`)

`State.update(data)` scans the delta for a `timer` key whose value is a dict
`{name: {value: seconds}}`, creating or cancelling `threading.Timer`s.  Each
created timer's action is the closure `lambda: _on_timer(name, {"timer": v})`;
Python closures capture the *variables* `name` and `v`, not their values at
creation time, so when a timer fires, `name` holds the last timer name the
loop iterated and `v` the value of the last delta key iterated by the outer
loop.  The modelled deltas consist of the `timer` key only (the shape in the
claim), so the captured `v` is the timer dict itself.  Timer seconds are
`float(v1["value"])`, modelled as `ℚ`; `update` completes before any timer
fires. -/

/-- A live `threading.Timer` created by `State.update`: its delay, and the
late-bound values its action closure will read when it fires. -/
structure ArmedTimer where
  delay : ℚ
  capturedName : String
  capturedTimer : List (String × ℚ)
deriving DecidableEq, Repr

/-- The state's `timers` dict (insertion-ordered) together with the number
of registered data callbacks. -/
structure TState where
  timers : List (String × ArmedTimer)
  ncallbacks : Nat
deriving DecidableEq, Repr

/-- Dict lookup `self.timers.get(name)`. -/
def lookupTimer (timers : List (String × ArmedTimer)) (name : String) :
    Option ArmedTimer :=
  (timers.find? (fun kv => kv.1 == name)).map (fun kv => kv.2)

/-- The timer-handling loop of `State.update` (component.py lines 41-58) for
a delta `{"timer": tdict}`: a fresh name with a positive value creates and
starts a timer (whose closure will resolve `name` to the last entry's name
and `v` to the whole timer dict); value 0 with a live timer cancels it and
removes it; a live timer with a positive value is left unchanged. -/
def State.update (s : TState) (tdict : List (String × ℚ)) : TState :=
  let lastName := ((tdict.map Prod.fst).getLast?).getD ""
  { s with
      timers :=
        tdict.foldl
          (fun timers kv =>
            match lookupTimer timers kv.1 with
            | none =>
                if kv.2 > (0 : ℚ) then timers ++ [(kv.1, ⟨kv.2, lastName, tdict⟩)]
                else timers
            | some _ =>
                if kv.2 = (0 : ℚ) then timers.filter (fun kv2 => kv2.1 != kv.1)
                else timers)
          s.timers }

/-- `_on_timer` (component.py lines 34-39), run when the `threading.Timer`
object `t` elapses: read `self.timers[name]` for the captured `name`
(`KeyError`, modelled `none`, when absent), delete that entry, then invoke
every data callback with `{"timer": v}` for the captured `v`.  Returns the
new state, the number of callbacks invoked (each exactly once), and the
`timer` sub-dict of the record `{"timer": v}` delivered to each of them. -/
def onTimer (s : TState) (t : ArmedTimer) :
    Option (TState × Nat × List (String × ℚ)) :=
  match lookupTimer s.timers t.capturedName with
  | none => none
  | some _ =>
      some
        ({ s with timers := s.timers.filter (fun kv => kv.1 != t.capturedName) },
          s.ncallbacks, t.capturedTimer)

/-- C8: the claim says an elapsing timer delivers
`{timer: {name: {value: original_seconds}}}` containing only that timer's
entry and removes itself.  Evaluating the code at the failing input — one
update creating two timers `t1` (5 s) and `t2` (7 s) with one registered
callback — the timer stored under `t1` was armed with the late-bound closure
values `name = "t2"` and `v =` the whole timer dict, so when it elapses the
callback receives both entries and the entry removed from the timer set is
`t2`, not the elapsed `t1`. -/
theorem timer_closure_late_binding :
    lookupTimer (State.update ⟨[], 1⟩ [("t1", 5), ("t2", 7)]).timers "t1" =
        some ⟨5, "t2", [("t1", 5), ("t2", 7)]⟩ ∧
      onTimer (State.update ⟨[], 1⟩ [("t1", 5), ("t2", 7)])
          ⟨5, "t2", [("t1", 5), ("t2", 7)]⟩ =
        some (⟨[("t1", ⟨5, "t2", [("t1", 5), ("t2", 7)]⟩)], 1⟩,
          1, [("t1", 5), ("t2", 7)]) := by
  decide

end Yamc
